import Mathlib

/-!
Verification of the atuin encrypted-sync engine against its specification.

The repository ships three visible source files: `atuin-common/src/api.rs`
(request/response types), `atuin-client/src/lib.rs` (module list) and
`src/command/mod.rs` (CLI dispatch).  The cipher engine, sync client and
server handlers are declared but their bodies are not in the visible tree,
so those components are modelled from the specification (each such
definition says so in its doc comment); the CLI dispatch and the API types
are embedded directly from the Rust source.
-/

namespace Atuin

/-! ## Codec: serialisation of a history record payload to a natural number -/

/-- Encode a list of naturals injectively into one natural, via `Nat.pair`. -/
def encodeListNat : List Nat → Nat
  | [] => 0
  | x :: xs => Nat.pair x (encodeListNat xs) + 1

/-- Decode the encoding produced by `encodeListNat`. -/
def decodeListNat : Nat → List Nat
  | 0 => []
  | n + 1 => (Nat.unpair n).1 :: decodeListNat (Nat.unpair n).2
decreasing_by exact Nat.lt_succ_of_le (Nat.unpair_right_le n)

theorem decodeListNat_encodeListNat (l : List Nat) :
    decodeListNat (encodeListNat l) = l := by
  induction l with
  | nil => simp [encodeListNat, decodeListNat]
  | cons x xs ih =>
    simp [encodeListNat, decodeListNat, Nat.unpair_pair, ih]

/-- Encode a string as the encoding of its character codes. -/
def encodeString (s : String) : Nat :=
  encodeListNat (s.data.map Char.toNat)

/-- Decode a string from its `encodeString` encoding. -/
def decodeString (n : Nat) : String :=
  String.mk ((decodeListNat n).map Char.ofNat)

theorem decodeString_encodeString (s : String) :
    decodeString (encodeString s) = s := by
  have h : (s.data.map Char.toNat).map Char.ofNat = s.data := by
    rw [List.map_map]
    have h2 : (Char.ofNat ∘ Char.toNat) = id := funext fun c => Char.ofNat_toNat c
    rw [h2, List.map_id]
  show String.mk ((decodeListNat (encodeListNat (s.data.map Char.toNat))).map Char.ofNat) = s
  rw [decodeListNat_encodeListNat, h]

/-- Encode an integer as a natural (evens for nonnegative, odds for negative). -/
def encodeInt : Int → Nat
  | Int.ofNat n => 2 * n
  | Int.negSucc n => 2 * n + 1

/-- Decode an integer from its `encodeInt` encoding. -/
def decodeInt (n : Nat) : Int :=
  if n % 2 = 0 then Int.ofNat (n / 2) else Int.negSucc (n / 2)

theorem decodeInt_encodeInt (i : Int) : decodeInt (encodeInt i) = i := by
  cases i with
  | ofNat n => simp [encodeInt, decodeInt, Nat.mul_div_cancel_left]
  | negSucc n =>
    have h : (2 * n + 1) % 2 = 1 := by omega
    simp [encodeInt, decodeInt, h]
    omega

/-! ## Data model: history records and encrypted blobs -/

/-- One executed shell command, as in the spec data model (§3): cleartext
header fields `id`, `timestamp`, `hostname` plus payload fields `command`,
`cwd`, `exit_code`, `duration`. -/
structure HistoryRecord where
  id : String
  timestamp : Nat
  hostname : String
  command : String
  cwd : String
  exit_code : Int
  duration : Nat
deriving DecidableEq

/-- Serialise the payload fields of a record (the part that is encrypted);
the header fields travel in cleartext on the blob. -/
def encodePayload (r : HistoryRecord) : Nat :=
  Nat.pair (encodeString r.command)
    (Nat.pair (encodeString r.cwd)
      (Nat.pair (encodeInt r.exit_code) r.duration))

/-- Deserialise a payload: (command, cwd, exit_code, duration). -/
def decodePayload (m : Nat) : String × String × Int × Nat :=
  (decodeString (Nat.unpair m).1,
   decodeString (Nat.unpair (Nat.unpair m).2).1,
   decodeInt (Nat.unpair (Nat.unpair (Nat.unpair m).2).2).1,
   (Nat.unpair (Nat.unpair (Nat.unpair m).2).2).2)

theorem decodePayload_encodePayload (r : HistoryRecord) :
    decodePayload (encodePayload r) =
      (r.command, r.cwd, r.exit_code, r.duration) := by
  simp [decodePayload, encodePayload, Nat.unpair_pair,
    decodeString_encodeString, decodeInt_encodeInt]

/-! ## Cipher engine

Modelled from the spec: the module `atuin-client/src/encryption.rs` is
declared in `atuin-client/src/lib.rs` but its body is not in the visible
source tree.  The spec (§4.1) requires authenticated encryption with a
fresh unique-per-key nonce; we model the authenticated-encryption
primitive ideally: the keystream pad and the authentication tag are
injective functions of (key, nonce) resp. (key, nonce, body). -/

/-- Error taxonomy of the cipher engine (spec §4.1, §7). -/
inductive CryptoError where
  | EncodingFailure
  | AuthenticationFailure
deriving DecidableEq

/-- Output of the authenticated-encryption primitive: the encrypted body
together with the authentication tag, as serialised into the blob's
ciphertext bytes. -/
structure AEOutput where
  body : Nat
  tg : Nat
deriving DecidableEq

/-- Modelled from the spec: the nonce source.  Spec §4.1 requires nonce
uniqueness per (key, encryption) pair to be "enforced by construction"
("a counter or cryptographic-random generator is acceptable"); we model
it as a counter threaded through `encrypt`. -/
structure NonceGen where
  next : Nat
deriving DecidableEq

/-- The wire/storage form of a history record (spec §3): cleartext `id`,
`timestamp`, `hostname`; encrypted, authenticated payload with its nonce. -/
structure EncryptedBlob where
  id : String
  timestamp : Nat
  hostname : String
  nonce : Nat
  ciphertext : AEOutput
deriving DecidableEq

/-- Modelled from the spec: ideal keystream pad for (key, nonce). -/
def pad (key nonce : Nat) : Nat := Nat.pair key nonce

/-- Modelled from the spec: ideal authentication tag over (key, nonce, body). -/
def authTag (key nonce body : Nat) : Nat :=
  Nat.pair (Nat.pair key nonce) body

/-- Modelled from the spec (§4.1): `encrypt(key, record)` serialises the
record payload via the Codec, draws a fresh nonce from the generator, and
produces authenticated ciphertext under the key.  Returns the blob and
the advanced nonce generator. -/
def encrypt (key : Nat) (r : HistoryRecord) (g : NonceGen) :
    EncryptedBlob × NonceGen :=
  let nonce := g.next
  let body := encodePayload r ^^^ pad key nonce
  ({ id := r.id, timestamp := r.timestamp, hostname := r.hostname,
     nonce := nonce,
     ciphertext := { body := body, tg := authTag key nonce body } },
   { next := g.next + 1 })

/-- Modelled from the spec (§4.1): `decrypt(key, blob)` verifies the
authentication tag against the (key, nonce, ciphertext) triple and fails
with `AuthenticationFailure` on any mismatch; on success it decrypts the
payload and rebuilds the record from the cleartext header fields. -/
def decrypt (key : Nat) (b : EncryptedBlob) :
    Except CryptoError HistoryRecord :=
  if b.ciphertext.tg = authTag key b.nonce b.ciphertext.body then
    let m := b.ciphertext.body ^^^ pad key b.nonce
    let p := decodePayload m
    Except.ok { id := b.id, timestamp := b.timestamp,
                hostname := b.hostname,
                command := p.1, cwd := p.2.1,
                exit_code := p.2.2.1, duration := p.2.2.2 }
  else
    Except.error CryptoError.AuthenticationFailure

/-- Flip bit `i` of a natural number. -/
def flipBit (x i : Nat) : Nat := x ^^^ 2 ^ i

theorem xor_left_cancel {a b c : Nat} (h : a ^^^ b = a ^^^ c) : b = c := by
  have h2 := congrArg (fun t => a ^^^ t) h
  simpa [← Nat.xor_assoc, Nat.xor_self, Nat.zero_xor] using h2

theorem flipBit_ne (x i : Nat) : flipBit x i ≠ x := by
  intro h
  have h0 : x ^^^ 2 ^ i = x ^^^ 0 := by
    simpa [Nat.xor_zero] using h
  have := xor_left_cancel h0
  exact absurd this (Nat.pos_iff_ne_zero.mp (Nat.pos_pow_of_pos i (by omega)))

/-- Flip bit `i` of the encrypted-body portion of a blob's ciphertext. -/
def flipCiphertextBodyBit (b : EncryptedBlob) (i : Nat) : EncryptedBlob :=
  { b with ciphertext := { b.ciphertext with body := flipBit b.ciphertext.body i } }

/-- Flip bit `i` of the authentication-tag portion of a blob's ciphertext. -/
def flipCiphertextTagBit (b : EncryptedBlob) (i : Nat) : EncryptedBlob :=
  { b with ciphertext := { b.ciphertext with tg := flipBit b.ciphertext.tg i } }

/-- Flip bit `i` of a blob's nonce. -/
def flipNonceBit (b : EncryptedBlob) (i : Nat) : EncryptedBlob :=
  { b with nonce := flipBit b.nonce i }

/-- C1: for every key, nonce-generator state and history record,
decrypting the blob produced by encrypting the record under that key
returns exactly the original record. -/
theorem decrypt_encrypt_roundtrip (key : Nat) (g : NonceGen) (r : HistoryRecord) :
    decrypt key (encrypt key r g).1 = Except.ok r := by
  simp only [encrypt, decrypt, if_pos rfl]
  have hx : (encodePayload r ^^^ pad key g.next) ^^^ pad key g.next = encodePayload r := by
    rw [Nat.xor_assoc, Nat.xor_self, Nat.xor_zero]
  simp [hx, decodePayload_encodePayload]

/-- C3: flipping any single bit of an honestly-encrypted blob's ciphertext
(in its encrypted body or its authentication tag) or of its nonce makes
`decrypt` fail with `CryptoError.AuthenticationFailure`; it never returns a
record. -/
theorem decrypt_tamper_fails (key : Nat) (g : NonceGen) (r : HistoryRecord) (i : Nat) :
    decrypt key (flipCiphertextBodyBit (encrypt key r g).1 i) =
      Except.error CryptoError.AuthenticationFailure ∧
    decrypt key (flipCiphertextTagBit (encrypt key r g).1 i) =
      Except.error CryptoError.AuthenticationFailure ∧
    decrypt key (flipNonceBit (encrypt key r g).1 i) =
      Except.error CryptoError.AuthenticationFailure := by
  refine ⟨?_, ?_, ?_⟩
  · simp only [encrypt, flipCiphertextBodyBit, decrypt]
    rw [if_neg]
    intro h
    have hb := (Nat.pair_eq_pair.mp h).2
    exact flipBit_ne _ i hb.symm
  · simp only [encrypt, flipCiphertextTagBit, decrypt]
    rw [if_neg]
    intro h
    exact flipBit_ne _ i h
  · simp only [encrypt, flipNonceBit, decrypt]
    rw [if_neg]
    intro h
    have hkn := (Nat.pair_eq_pair.mp (Nat.pair_eq_pair.mp h).1).2
    exact flipBit_ne _ i hkn.symm

/-- C8: two consecutive invocations of `encrypt` on the same record under
the same key (threading the nonce generator) produce blobs whose nonces
differ and whose ciphertexts differ. -/
theorem encrypt_nonce_unique (key : Nat) (r : HistoryRecord) (g : NonceGen) :
    (encrypt key r g).1.nonce ≠ (encrypt key r (encrypt key r g).2).1.nonce ∧
    (encrypt key r g).1.ciphertext ≠ (encrypt key r (encrypt key r g).2).1.ciphertext := by
  constructor
  · simp [encrypt]
  · simp only [encrypt]
    intro h
    have hb : encodePayload r ^^^ pad key g.next
        = encodePayload r ^^^ pad key (g.next + 1) := by
      have := congrArg AEOutput.body h
      simpa using this
    have hp : pad key g.next = pad key (g.next + 1) := xor_left_cancel hb
    have := (Nat.pair_eq_pair.mp hp).2
    omega

/-! ## Sync server

Modelled from the spec: the server handlers (`atuin-server`) are not in
the visible source tree; only their request/response types are, in
`atuin-common/src/api.rs`.  A user's server-side store is a list of
stored blobs carrying the fields of `AddHistoryRequest` (`id : String`,
`timestamp`, `data : String`, `hostname : String`). -/

/-- One stored blob in a user's server-side namespace, with the fields of
`AddHistoryRequest` from `atuin-common/src/api.rs` (timestamps modelled
as naturals). -/
structure StoredBlob where
  id : String
  timestamp : Nat
  data : String
  hostname : String
deriving DecidableEq

/-- Modelled from the spec (§4.3): `add_history` stores the blob keyed by
(user, id); if the `id` already exists for the user, the request is an
idempotent no-op — never an error, never a duplicate. -/
def addHistory (store : List StoredBlob) (req : StoredBlob) : List StoredBlob :=
  if ∃ b ∈ store, b.id = req.id then store else store ++ [req]

/-- The fixed download page size (spec §8 fixes it at 100). -/
def PAGE_SIZE : Nat := 100

/-- Ordering of stored blobs by timestamp. -/
def tsLe (a b : StoredBlob) : Prop := a.timestamp ≤ b.timestamp

instance : DecidableRel tsLe := fun a b => Nat.decLe a.timestamp b.timestamp

instance : IsTotal StoredBlob tsLe := ⟨fun a b => Nat.le_total a.timestamp b.timestamp⟩

instance : IsTrans StoredBlob tsLe := ⟨fun _ _ _ h1 h2 => Nat.le_trans h1 h2⟩

/-- Modelled from the spec (§4.3): `sync_history` returns the user's blobs
with `timestamp > history_ts`, excluding the requesting `host`, ordered
ascending by timestamp and capped at the fixed page size.  (The `sync_ts`
ingestion-time bound of the spec is not modelled: the model keeps no
ingestion-time metadata.) -/
def syncHistory (store : List StoredBlob) (historyTs : Nat) (host : String) :
    List StoredBlob :=
  (List.insertionSort tsLe
    (store.filter fun b => decide (historyTs < b.timestamp ∧ b.hostname ≠ host))).take
    PAGE_SIZE

/-- C4: submitting the same request twice is an idempotent no-op — the
second submission changes nothing — and, when the id was not yet present,
the server ends up holding exactly one blob with that id. -/
theorem addHistory_idempotent (store : List StoredBlob) (req : StoredBlob)
    (h : ∀ b ∈ store, b.id ≠ req.id) :
    addHistory (addHistory store req) req = addHistory store req ∧
    (addHistory (addHistory store req) req).countP (fun b => b.id == req.id) = 1 := by
  have h1 : ¬ ∃ b ∈ store, b.id = req.id := by
    rintro ⟨b, hb, hid⟩
    exact h b hb hid
  have h2 : addHistory store req = store ++ [req] := by
    simp only [addHistory, if_neg h1]
  have h3 : addHistory (store ++ [req]) req = store ++ [req] := by
    have : ∃ b ∈ store ++ [req], b.id = req.id := ⟨req, by simp⟩
    simp only [addHistory, if_pos this]
  constructor
  · rw [h2, h3]
  · rw [h2, h3, List.countP_append]
    have hz : store.countP (fun b => b.id == req.id) = 0 := by
      rw [List.countP_eq_zero]
      intro b hb
      simpa using h b hb
    simp [hz, List.countP_cons]

/-- C4 witness: concrete instantiation on a one-blob store and a fresh id. -/
theorem addHistory_idempotent_witness :
    addHistory (addHistory [⟨"a", 1, "d", "h"⟩] ⟨"b", 2, "e", "h"⟩) ⟨"b", 2, "e", "h"⟩ =
      addHistory [⟨"a", 1, "d", "h"⟩] ⟨"b", 2, "e", "h"⟩ ∧
    (addHistory (addHistory [⟨"a", 1, "d", "h"⟩] ⟨"b", 2, "e", "h"⟩)
      ⟨"b", 2, "e", "h"⟩).countP (fun b => b.id == "b") = 1 :=
  addHistory_idempotent [⟨"a", 1, "d", "h"⟩] ⟨"b", 2, "e", "h"⟩ (by decide)

/-- C5: every blob returned by `sync_history` comes from the user's store,
has timestamp strictly above `history_ts`, and does not carry the
requesting host's name; the result is sorted ascending by timestamp and
holds at most `PAGE_SIZE` blobs. -/
theorem syncHistory_spec (store : List StoredBlob) (historyTs : Nat) (host : String) :
    (∀ b ∈ syncHistory store historyTs host,
      b ∈ store ∧ historyTs < b.timestamp ∧ b.hostname ≠ host) ∧
    (syncHistory store historyTs host).Sorted tsLe ∧
    (syncHistory store historyTs host).length ≤ PAGE_SIZE := by
  refine ⟨?_, ?_, ?_⟩
  · intro b hb
    have hb2 : b ∈ List.insertionSort tsLe
        (store.filter fun b => decide (historyTs < b.timestamp ∧ b.hostname ≠ host)) :=
      List.mem_of_mem_take hb
    have hb3 := (List.perm_insertionSort tsLe _).mem_iff.mp hb2
    have hb4 := List.mem_filter.mp hb3
    refine ⟨hb4.1, ?_⟩
    simpa using hb4.2
  · exact (List.sorted_insertionSort tsLe _).sublist (List.take_sublist _ _)
  · calc (syncHistory store historyTs host).length
        ≤ PAGE_SIZE := by
          simp [syncHistory]

/-! ## Sync client

Modelled from the spec: the module `atuin-client/src/sync.rs` is declared
in `atuin-client/src/lib.rs` but its body is not in the visible source
tree.  A host is a local store of blobs plus the per-host sync checkpoint
(spec §3 `SyncCheckpoint`, §4.2 state machine). -/

/-- Local state of one host: its store, its hostname, and its sync
checkpoint `last_sync_timestamp` (epoch = 0). -/
structure HostState where
  store : List StoredBlob
  name : String
  cp : Nat
deriving DecidableEq

/-- Modelled from the spec (§6): the local store's `insert_if_absent`,
deduplicating on `id`. -/
def insertIfAbsent (store : List StoredBlob) (r : StoredBlob) : List StoredBlob :=
  if ∃ b ∈ store, b.id = r.id then store else store ++ [r]

/-- Modelled from the spec (§4.2 Downloading): all server blobs with
timestamp strictly after the checkpoint, excluding the requesting host
(download run to page exhaustion). -/
def downloadAll (server : List StoredBlob) (host : String) (cp : Nat) :
    List StoredBlob :=
  server.filter fun b => decide (cp < b.timestamp ∧ b.hostname ≠ host)

/-- Modelled from the spec (§4.2 Committed): apply one downloaded batch —
insert each blob if absent, then advance the checkpoint to the maximum
timestamp observed in the batch. -/
def applyBatch (h : HostState) (batch : List StoredBlob) : HostState :=
  { h with store := batch.foldl insertIfAbsent h.store,
           cp := batch.foldl (fun a b => max a b.timestamp) h.cp }

/-- Result of one sync run: the new server state, the new host state, and
the batch of blobs the host downloaded during the run. -/
structure SyncResult where
  server : List StoredBlob
  host : HostState
  downloaded : List StoredBlob
deriving DecidableEq

/-- Modelled from the spec (§4.2): one sync run to completion — upload
every local record (the server deduplicates on `id`), then download all
newer records not originating from this host and commit them. -/
def syncOnce (server : List StoredBlob) (h : HostState) : SyncResult :=
  let server2 := h.store.foldl addHistory server
  let batch := downloadAll server2 h.name h.cp
  { server := server2, host := applyBatch h batch, downloaded := batch }

/-- A sequence of sync runs of one host against successive server states. -/
def syncSeq (h : HostState) : List (List StoredBlob) → HostState
  | [] => h
  | s :: rest => syncSeq (syncOnce s h).host rest

/-- Modelled from the spec (§4.2): forced full sync resets the checkpoint
to the epoch before syncing. -/
def forceSync (server : List StoredBlob) (h : HostState) : SyncResult :=
  syncOnce server { h with cp := 0 }

theorem foldl_addHistory_fresh :
    ∀ (l server : List StoredBlob),
      (∀ r ∈ l, ∀ s ∈ server, r.id ≠ s.id) →
      (l.map StoredBlob.id).Nodup →
      List.foldl addHistory server l = server ++ l := by
  intro l
  induction l with
  | nil => intro server _ _; simp
  | cons r l ih =>
    intro server hfresh hnodup
    have hno : ¬ ∃ b ∈ server, b.id = r.id := by
      rintro ⟨b, hb, hid⟩
      exact hfresh r (by simp) b hb hid.symm
    have hstep : addHistory server r = server ++ [r] := by
      simp only [addHistory, if_neg hno]
    have hfresh2 : ∀ x ∈ l, ∀ s ∈ server ++ [r], x.id ≠ s.id := by
      intro x hx s hs
      rcases List.mem_append.mp hs with hs1 | hs2
      · exact hfresh x (List.mem_cons_of_mem r hx) s hs1
      · have hsr : s = r := by simpa using hs2
        rw [hsr]
        have hnotin : r.id ∉ l.map StoredBlob.id := (List.nodup_cons.mp hnodup).1
        intro hEq
        exact hnotin (hEq ▸ List.mem_map_of_mem StoredBlob.id hx)
    have := ih (server ++ [r]) hfresh2 (List.nodup_cons.mp hnodup).2
    simp only [List.foldl_cons, hstep, this, List.append_assoc,
      List.singleton_append]

theorem foldl_addHistory_present :
    ∀ (l server : List StoredBlob),
      (∀ r ∈ l, ∃ s ∈ server, s.id = r.id) →
      List.foldl addHistory server l = server := by
  intro l
  induction l with
  | nil => intro server _; rfl
  | cons r l ih =>
    intro server hpres
    have hex : ∃ b ∈ server, b.id = r.id := by
      rcases hpres r (by simp) with ⟨s, hs, hid⟩
      exact ⟨s, hs, hid⟩
    have hstep : addHistory server r = server := by
      simp only [addHistory, if_pos hex]
    simp only [List.foldl_cons, hstep]
    exact ih server (fun x hx => hpres x (List.mem_cons_of_mem r hx))

theorem foldl_insertIfAbsent_fresh :
    ∀ (l store : List StoredBlob),
      (∀ r ∈ l, ∀ s ∈ store, r.id ≠ s.id) →
      (l.map StoredBlob.id).Nodup →
      List.foldl insertIfAbsent store l = store ++ l := by
  intro l
  induction l with
  | nil => intro store _ _; simp
  | cons r l ih =>
    intro store hfresh hnodup
    have hno : ¬ ∃ b ∈ store, b.id = r.id := by
      rintro ⟨b, hb, hid⟩
      exact hfresh r (by simp) b hb hid.symm
    have hstep : insertIfAbsent store r = store ++ [r] := by
      simp only [insertIfAbsent, if_neg hno]
    have hfresh2 : ∀ x ∈ l, ∀ s ∈ store ++ [r], x.id ≠ s.id := by
      intro x hx s hs
      rcases List.mem_append.mp hs with hs1 | hs2
      · exact hfresh x (List.mem_cons_of_mem r hx) s hs1
      · have hsr : s = r := by simpa using hs2
        rw [hsr]
        have hnotin : r.id ∉ l.map StoredBlob.id := (List.nodup_cons.mp hnodup).1
        intro hEq
        exact hnotin (hEq ▸ List.mem_map_of_mem StoredBlob.id hx)
    have := ih (store ++ [r]) hfresh2 (List.nodup_cons.mp hnodup).2
    simp only [List.foldl_cons, hstep, this, List.append_assoc,
      List.singleton_append]

theorem le_foldl_max :
    ∀ (l : List StoredBlob) (a : Nat),
      a ≤ List.foldl (fun x b => max x b.timestamp) a l := by
  intro l
  induction l with
  | nil => intro a; exact Nat.le_refl a
  | cons b l ih =>
    intro a
    exact Nat.le_trans (Nat.le_max_left a b.timestamp) (ih (max a b.timestamp))

/-- C6: the checkpoint never decreases across any sequence of successful
sync runs, and a force-invoked sync resets the checkpoint to the epoch
first — its outcome is independent of the previous checkpoint value. -/
theorem checkpoint_monotone :
    (∀ (servers : List (List StoredBlob)) (h : HostState),
      h.cp ≤ (syncSeq h servers).cp) ∧
    (∀ (server store : List StoredBlob) (name : String) (cp cp' : Nat),
      forceSync server ⟨store, name, cp⟩ = forceSync server ⟨store, name, cp'⟩) := by
  constructor
  · intro servers
    induction servers with
    | nil => intro h; exact Nat.le_refl h.cp
    | cons s rest ih =>
      intro h
      have h1 : h.cp ≤ (syncOnce s h).host.cp := by
        simp only [syncOnce, applyBatch]
        exact le_foldl_max _ h.cp
      exact Nat.le_trans h1 (ih (syncOnce s h).host)
  · intro server store name cp cp'
    rfl

/-! ## Sync failure atomicity

Modelled from the spec (§4.2 failure policy, §7): a run proceeds through
the phases negotiate, upload, download; a download is a sequence of page
fetches, each either delivering a batch or failing on the network. -/

/-- The phase in which a sync run failed. -/
inductive SyncPhase where
  | negotiate
  | upload
  | download
deriving DecidableEq

/-- Network outcomes observed by one sync run: whether the negotiate
(count) call and the upload call succeed, and the outcome of each
download-page fetch (`none` = network error on that page). -/
structure NetTrace where
  negotiateOk : Bool
  uploadOk : Bool
  pages : List (Option (List StoredBlob))

/-- Process download pages in order, committing each successful batch;
stop at the first failed page. Returns the resulting host state and
whether all pages succeeded. -/
def runPages (h : HostState) : List (Option (List StoredBlob)) → HostState × Bool
  | [] => (h, true)
  | none :: _ => (h, false)
  | some pg :: rest => runPages (applyBatch h pg) rest

/-- Modelled from the spec (§4.2, §7): one sync attempt under a given
network trace — negotiate, then upload, then paged download; a failure in
any phase aborts the run and reports that phase. -/
def syncAttempt (net : NetTrace) (h : HostState) : HostState × Option SyncPhase :=
  if net.negotiateOk = false then (h, some SyncPhase.negotiate)
  else if net.uploadOk = false then (h, some SyncPhase.upload)
  else
    match runPages h net.pages with
    | (h2, true) => (h2, none)
    | (h2, false) => (h2, some SyncPhase.download)

theorem runPages_stops_at_failure :
    ∀ (good : List (List StoredBlob)) (h : HostState)
      (rest : List (Option (List StoredBlob))),
      runPages h (good.map some ++ none :: rest) =
        (good.foldl applyBatch h, false) := by
  intro good
  induction good with
  | nil => intro h rest; rfl
  | cons pg good ih =>
    intro h rest
    simp only [List.map_cons, List.cons_append, runPages, List.foldl_cons]
    exact ih (applyBatch h pg) rest

/-- C7: a sync run that fails in any phase leaves the host state (local
store and checkpoint) exactly as it was before the failed batch: a
negotiate or upload failure changes nothing, and a download failure on a
page leaves precisely the previously committed batches applied — the
failed batch itself is never partially applied. -/
theorem sync_failure_atomic (h : HostState) :
    (∀ (upOk : Bool) (pages : List (Option (List StoredBlob))),
      syncAttempt ⟨false, upOk, pages⟩ h = (h, some SyncPhase.negotiate)) ∧
    (∀ (pages : List (Option (List StoredBlob))),
      syncAttempt ⟨true, false, pages⟩ h = (h, some SyncPhase.upload)) ∧
    (∀ (good : List (List StoredBlob)) (rest : List (Option (List StoredBlob))),
      syncAttempt ⟨true, true, good.map some ++ none :: rest⟩ h =
        (good.foldl applyBatch h, some SyncPhase.download)) := by
  refine ⟨fun upOk pages => rfl, fun pages => rfl, fun good rest => ?_⟩
  simp only [syncAttempt]
  rw [runPages_stops_at_failure good h rest]
  simp

/-! ## Two-host convergence scenario -/

/-- First sync: host A (store `histA`, epoch checkpoint) against an empty
server. -/
def run1 (histA : List StoredBlob) (A : String) : SyncResult :=
  syncOnce [] ⟨histA, A, 0⟩

/-- Second sync: host B (store `histB`, epoch checkpoint) against the
server left by host A's first sync. -/
def run2 (histA histB : List StoredBlob) (A B : String) : SyncResult :=
  syncOnce (run1 histA A).server ⟨histB, B, 0⟩

/-- Third sync: host A again, against the server left by host B's sync. -/
def run3 (histA histB : List StoredBlob) (A B : String) : SyncResult :=
  syncOnce (run2 histA histB A B).server (run1 histA A).host

theorem syncOnce_server (server : List StoredBlob) (h : HostState) :
    (syncOnce server h).server = List.foldl addHistory server h.store := rfl

theorem syncOnce_downloaded (server : List StoredBlob) (h : HostState) :
    (syncOnce server h).downloaded =
      downloadAll (List.foldl addHistory server h.store) h.name h.cp := rfl

theorem syncOnce_host (server : List StoredBlob) (h : HostState) :
    (syncOnce server h).host =
      applyBatch h (downloadAll (List.foldl addHistory server h.store) h.name h.cp) := rfl

/-- C2: two hosts A and B with disjoint local histories (n and m records,
each record stamped with its own host's name and a positive timestamp)
sync in turn against the same empty server: A, then B, then A again.
Afterwards both local stores hold exactly the union of the two histories
— size n+m, with no duplicate ids — and host A never downloads a record
that originated from A. -/
theorem sync_convergence
    (histA histB : List StoredBlob) (A B : String)
    (hAB : A ≠ B)
    (hAhost : ∀ r ∈ histA, r.hostname = A)
    (hBhost : ∀ r ∈ histB, r.hostname = B)
    (hApos : ∀ r ∈ histA, 0 < r.timestamp)
    (hBpos : ∀ r ∈ histB, 0 < r.timestamp)
    (hAnodup : (histA.map StoredBlob.id).Nodup)
    (hBnodup : (histB.map StoredBlob.id).Nodup)
    (hdisj : ∀ r ∈ histA, ∀ s ∈ histB, r.id ≠ s.id) :
    (run3 histA histB A B).host.store = histA ++ histB ∧
    (run2 histA histB A B).host.store = histB ++ histA ∧
    (run3 histA histB A B).host.store.length = histA.length + histB.length ∧
    (run2 histA histB A B).host.store.length = histB.length + histA.length ∧
    ((run3 histA histB A B).host.store.map StoredBlob.id).Nodup ∧
    ((run2 histA histB A B).host.store.map StoredBlob.id).Nodup ∧
    (∀ r ∈ histA,
      r ∉ (run1 histA A).downloaded ∧ r ∉ (run3 histA histB A B).downloaded) := by
  have hs1 : List.foldl addHistory [] histA = histA := by
    simpa using foldl_addHistory_fresh histA [] (by simp) hAnodup
  have hd1 : downloadAll histA A 0 = [] := by
    simp only [downloadAll, List.filter_eq_nil_iff]
    intro b hb
    simp [hAhost b hb]
  have e1server : (run1 histA A).server = histA := hs1
  have e1down : (run1 histA A).downloaded = [] := by
    show downloadAll (List.foldl addHistory [] histA) A 0 = []
    rw [hs1]
    exact hd1
  have e1host : (run1 histA A).host = ⟨histA, A, 0⟩ := by
    show applyBatch ⟨histA, A, 0⟩ (downloadAll (List.foldl addHistory [] histA) A 0)
      = ⟨histA, A, 0⟩
    rw [hs1, hd1]
    rfl
  have e1hstore : (run1 histA A).host.store = histA := by rw [e1host]
  have e1hname : (run1 histA A).host.name = A := by rw [e1host]
  have e1hcp : (run1 histA A).host.cp = 0 := by rw [e1host]
  have hs2 : List.foldl addHistory histA histB = histA ++ histB :=
    foldl_addHistory_fresh histB histA
      (fun r hr s hs => Ne.symm (hdisj s hs r hr)) hBnodup
  have hdA : downloadAll (histA ++ histB) B 0 = histA := by
    simp only [downloadAll, List.filter_append]
    have h1 : histA.filter (fun b => decide (0 < b.timestamp ∧ b.hostname ≠ B))
        = histA := by
      rw [List.filter_eq_self]
      intro b hb
      simp only [decide_eq_true_eq]
      exact ⟨hApos b hb, by rw [hAhost b hb]; exact hAB⟩
    have h2 : histB.filter (fun b => decide (0 < b.timestamp ∧ b.hostname ≠ B))
        = [] := by
      rw [List.filter_eq_nil_iff]
      intro b hb
      simp [hBhost b hb]
    rw [h1, h2, List.append_nil]
  have e2server : (run2 histA histB A B).server = histA ++ histB := by
    show List.foldl addHistory (run1 histA A).server histB = histA ++ histB
    rw [e1server]
    exact hs2
  have e2down : (run2 histA histB A B).downloaded = histA := by
    show downloadAll (List.foldl addHistory (run1 histA A).server histB) B 0 = histA
    rw [e1server, hs2]
    exact hdA
  have e2store : (run2 histA histB A B).host.store = histB ++ histA := by
    show List.foldl insertIfAbsent histB
      (downloadAll (List.foldl addHistory (run1 histA A).server histB) B 0)
      = histB ++ histA
    rw [e1server, hs2, hdA]
    exact foldl_insertIfAbsent_fresh histA histB (fun r hr s hs => hdisj r hr s hs)
      hAnodup
  have hs3 : List.foldl addHistory (histA ++ histB) histA = histA ++ histB :=
    foldl_addHistory_present histA (histA ++ histB)
      (fun r hr => ⟨r, List.mem_append_left _ hr, rfl⟩)
  have hdB : downloadAll (histA ++ histB) A 0 = histB := by
    simp only [downloadAll, List.filter_append]
    have h1 : histA.filter (fun b => decide (0 < b.timestamp ∧ b.hostname ≠ A))
        = [] := by
      rw [List.filter_eq_nil_iff]
      intro b hb
      simp [hAhost b hb]
    have h2 : histB.filter (fun b => decide (0 < b.timestamp ∧ b.hostname ≠ A))
        = histB := by
      rw [List.filter_eq_self]
      intro b hb
      simp only [decide_eq_true_eq]
      refine ⟨hBpos b hb, ?_⟩
      rw [hBhost b hb]
      exact fun hEq => hAB hEq.symm
    rw [h1, h2, List.nil_append]
  have e3down : (run3 histA histB A B).downloaded = histB := by
    show downloadAll
      (List.foldl addHistory (run2 histA histB A B).server (run1 histA A).host.store)
      (run1 histA A).host.name (run1 histA A).host.cp = histB
    rw [e2server, e1hstore, e1hname, e1hcp, hs3]
    exact hdB
  have e3store : (run3 histA histB A B).host.store = histA ++ histB := by
    show List.foldl insertIfAbsent (run1 histA A).host.store
      (downloadAll
        (List.foldl addHistory (run2 histA histB A B).server (run1 histA A).host.store)
        (run1 histA A).host.name (run1 histA A).host.cp)
      = histA ++ histB
    rw [e2server, e1hstore, e1hname, e1hcp, hs3, hdB]
    exact foldl_insertIfAbsent_fresh histB histA
      (fun r hr s hs => Ne.symm (hdisj s hs r hr)) hBnodup
  have hdisjAB : List.Disjoint (histA.map StoredBlob.id) (histB.map StoredBlob.id) := by
    intro a haA haB
    rcases List.mem_map.mp haA with ⟨r, hr, hrid⟩
    rcases List.mem_map.mp haB with ⟨s, hs, hsid⟩
    exact hdisj r hr s hs (by rw [hrid, hsid])
  have hnodupAB : ((histA ++ histB).map StoredBlob.id).Nodup := by
    rw [List.map_append]
    exact List.Nodup.append hAnodup hBnodup hdisjAB
  have hnodupBA : ((histB ++ histA).map StoredBlob.id).Nodup := by
    rw [List.map_append]
    exact List.Nodup.append hBnodup hAnodup (List.disjoint_symm hdisjAB)
  refine ⟨e3store, e2store, ?_, ?_, ?_, ?_, ?_⟩
  · rw [e3store, List.length_append]
  · rw [e2store, List.length_append]
  · rw [e3store]; exact hnodupAB
  · rw [e2store]; exact hnodupBA
  · intro r hr
    constructor
    · rw [e1down]; simp
    · rw [e3down]
      intro hrB
      exact hAB (((hAhost r hr).symm).trans (hBhost r hrB))

/-- C2 witness: concrete two-host instantiation with one record each. -/
theorem sync_convergence_witness :
    (run3 [⟨"a", 1, "x", "A"⟩] [⟨"b", 2, "y", "B"⟩] "A" "B").host.store
        = [⟨"a", 1, "x", "A"⟩] ++ [⟨"b", 2, "y", "B"⟩] ∧
    (run2 [⟨"a", 1, "x", "A"⟩] [⟨"b", 2, "y", "B"⟩] "A" "B").host.store
        = [⟨"b", 2, "y", "B"⟩] ++ [⟨"a", 1, "x", "A"⟩] ∧
    (run3 [⟨"a", 1, "x", "A"⟩] [⟨"b", 2, "y", "B"⟩] "A" "B").host.store.length
        = [(⟨"a", 1, "x", "A"⟩ : StoredBlob)].length
          + [(⟨"b", 2, "y", "B"⟩ : StoredBlob)].length ∧
    (run2 [⟨"a", 1, "x", "A"⟩] [⟨"b", 2, "y", "B"⟩] "A" "B").host.store.length
        = [(⟨"b", 2, "y", "B"⟩ : StoredBlob)].length
          + [(⟨"a", 1, "x", "A"⟩ : StoredBlob)].length ∧
    ((run3 [⟨"a", 1, "x", "A"⟩] [⟨"b", 2, "y", "B"⟩] "A" "B").host.store.map
        StoredBlob.id).Nodup ∧
    ((run2 [⟨"a", 1, "x", "A"⟩] [⟨"b", 2, "y", "B"⟩] "A" "B").host.store.map
        StoredBlob.id).Nodup ∧
    (∀ r ∈ [(⟨"a", 1, "x", "A"⟩ : StoredBlob)],
      r ∉ (run1 [⟨"a", 1, "x", "A"⟩] "A").downloaded ∧
      r ∉ (run3 [⟨"a", 1, "x", "A"⟩] [⟨"b", 2, "y", "B"⟩] "A" "B").downloaded) :=
  sync_convergence [⟨"a", 1, "x", "A"⟩] [⟨"b", 2, "y", "B"⟩] "A" "B"
    (by decide) (by decide) (by decide) (by decide) (by decide)
    (by decide) (by decide) (by decide)

/-! ## Server error responses

`ErrorResponse` and `ErrorResponse::reply` are embedded from
`atuin-common/src/api.rs`: `reply` serialises `ErrorResponse { reason }`
as the JSON body and attaches the given HTTP status code. -/

/-- A JSON value (the fragment needed for API bodies). -/
inductive Json where
  | str : String → Json
  | num : Int → Json
  | obj : List (String × Json) → Json

/-- `ErrorResponse` from `atuin-common/src/api.rs`. -/
structure ErrorResponse where
  reason : String

/-- Serde serialisation of `ErrorResponse`: a one-field JSON object. -/
def ErrorResponse.toJson (e : ErrorResponse) : Json :=
  Json.obj [("reason", Json.str e.reason)]

/-- An HTTP reply: a JSON body plus a status code. -/
structure Reply where
  body : Json
  status : Nat

/-- `ErrorResponse::reply` from `atuin-common/src/api.rs`: wrap the reason
in an `ErrorResponse`, serialise it as the JSON body, and attach the
given status code. -/
def ErrorResponse.reply (reason : String) (status : Nat) : Reply :=
  { body := ErrorResponse.toJson { reason := reason }, status := status }

/-- Whether a status code is a 2xx success code. -/
def is2xx (s : Nat) : Prop := 200 ≤ s ∧ s < 300

instance (s : Nat) : Decidable (is2xx s) := by
  unfold is2xx
  exact instDecidableAnd

/-- C9: every error response the server produces — `ErrorResponse::reply`
invoked with a non-2xx status, per the spec's uniform error contract —
has as body exactly the JSON object with the single field `reason`
holding the reason string, and carries that non-2xx status code. -/
theorem error_response_shape (reason : String) (status : Nat)
    (h : ¬ is2xx status) :
    (ErrorResponse.reply reason status).body
        = Json.obj [("reason", Json.str reason)] ∧
    ¬ is2xx (ErrorResponse.reply reason status).status :=
  ⟨rfl, h⟩

/-- C9 witness: a concrete 400 error reply. -/
theorem error_response_shape_witness :
    (ErrorResponse.reply "invalid login details" 400).body
        = Json.obj [("reason", Json.str "invalid login details")] ∧
    ¬ is2xx (ErrorResponse.reply "invalid login details" 400).status :=
  error_response_shape "invalid login details" 400 (by decide)

/-! ## CLI dispatch

Embedded from `src/command/mod.rs`: `AtuinCmd::run` first constructs the
client settings, then the server settings, then opens the Sqlite database
at `client_settings.db_path`, each with the `?` operator, and only then
dispatches on the subcommand.  The payload types of the subcommands live
in modules outside the visible tree, so the variants are carried without
payloads (except `Sync`'s `force` flag, visible in `mod.rs`). -/

/-- Client settings (the fields `run` reads: `db_path`, `key_path`). -/
structure ClientSettings where
  db_path : String
  key_path : String
deriving DecidableEq

/-- Server settings (contents irrelevant to dispatch order). -/
structure ServerSettings where
  host : String
deriving DecidableEq

/-- A handle to an opened Sqlite database. -/
structure Sqlite where
  path : String
deriving DecidableEq

/-- The CLI subcommands of `AtuinCmd` in `src/command/mod.rs`. -/
inductive AtuinCmd where
  | History
  | Import
  | Server
  | Stats
  | Init
  | Uuid
  | Search
  | Sync (force : Bool)
  | Login
  | Register
  | Key
deriving DecidableEq

/-- The fallible environment `run` executes in: loading either settings
file and opening the database can fail. -/
structure RunEnv where
  clientSettings : Except String ClientSettings
  serverSettings : Except String ServerSettings
  sqliteNew : String → Except String Sqlite

/-- Observable events of one `run` invocation, in order. -/
inductive RunEvent where
  | loadedClientSettings
  | loadedServerSettings
  | openedDb (path : String)
  | ranSub (cmd : AtuinCmd)
deriving DecidableEq

/-- `AtuinCmd::run` from `src/command/mod.rs`: load client settings, load
server settings, open the Sqlite database at `client_settings.db_path` —
returning early on the first error — and only then run the selected
subcommand. -/
def AtuinCmd.run (env : RunEnv) (cmd : AtuinCmd) :
    List RunEvent × Except String Unit :=
  match env.clientSettings with
  | Except.error e => ([], Except.error e)
  | Except.ok cs =>
    match env.serverSettings with
    | Except.error e => ([RunEvent.loadedClientSettings], Except.error e)
    | Except.ok _ss =>
      match env.sqliteNew cs.db_path with
      | Except.error e =>
        ([RunEvent.loadedClientSettings, RunEvent.loadedServerSettings],
         Except.error e)
      | Except.ok _db =>
        ([RunEvent.loadedClientSettings, RunEvent.loadedServerSettings,
          RunEvent.openedDb cs.db_path, RunEvent.ranSub cmd],
         Except.ok ())

/-- The setup prefix of `run`: client settings, then server settings, then
the database, with the first error short-circuiting. -/
def setupPhase (env : RunEnv) :
    Except String (ClientSettings × ServerSettings × Sqlite) :=
  match env.clientSettings with
  | Except.error e => Except.error e
  | Except.ok cs =>
    match env.serverSettings with
    | Except.error e => Except.error e
    | Except.ok ss =>
      match env.sqliteNew cs.db_path with
      | Except.error e => Except.error e
      | Except.ok db => Except.ok (cs, ss, db)

/-- C10: for every subcommand — including `Uuid`, `Init` and `Key`, which
make no use of the database — if loading the client settings, loading the
server settings, or opening the database fails, `run` returns that error
and the subcommand body is never executed. -/
theorem run_setup_failure (env : RunEnv) (cmd : AtuinCmd) (e : String)
    (h : setupPhase env = Except.error e) :
    (AtuinCmd.run env cmd).2 = Except.error e ∧
    ∀ c, RunEvent.ranSub c ∉ (AtuinCmd.run env cmd).1 := by
  cases hcs : env.clientSettings with
  | error e1 =>
    simp only [setupPhase, hcs] at h
    obtain rfl : e1 = e := by injection h
    simp only [AtuinCmd.run, hcs]
    exact ⟨trivial, by simp⟩
  | ok cs =>
    cases hss : env.serverSettings with
    | error e1 =>
      simp only [setupPhase, hcs, hss] at h
      obtain rfl : e1 = e := by injection h
      simp only [AtuinCmd.run, hcs, hss]
      refine ⟨trivial, ?_⟩
      intro c
      simp
    | ok ss =>
      cases hdb : env.sqliteNew cs.db_path with
      | error e1 =>
        simp only [setupPhase, hcs, hss, hdb] at h
        obtain rfl : e1 = e := by injection h
        simp only [AtuinCmd.run, hcs, hss, hdb]
        refine ⟨trivial, ?_⟩
        intro c
        simp
      | ok db =>
        simp only [setupPhase, hcs, hss, hdb] at h
        exact Except.noConfusion h

/-- C10 witness: a failing client-settings load with the `Uuid` subcommand. -/
theorem run_setup_failure_witness :
    (AtuinCmd.run
      ⟨Except.error "no settings", Except.ok ⟨"h"⟩, fun p => Except.ok ⟨p⟩⟩
      AtuinCmd.Uuid).2 = Except.error "no settings" ∧
    ∀ c, RunEvent.ranSub c ∉
      (AtuinCmd.run
        ⟨Except.error "no settings", Except.ok ⟨"h"⟩, fun p => Except.ok ⟨p⟩⟩
        AtuinCmd.Uuid).1 :=
  run_setup_failure
    ⟨Except.error "no settings", Except.ok ⟨"h"⟩, fun p => Except.ok ⟨p⟩⟩
    AtuinCmd.Uuid "no settings" rfl

end Atuin
